import Mathlib

/-
Verification of the cargr field-extraction and classification engine.

Shallow embedding of the Python sources:
  utils.py          (safe_int, safe_float, locale-aware numeric cleanup)
  field_parsers.py  (BaseFieldParser and subclasses)
  car_parser.py     (field descriptor table)
  cache.py          (FilterCacheService with stale fallback)
  http_client.py    (fetch_with_retry)
  filter_parser.py  (FilterDiscoveryParser)

Machine integers are modelled as Nat / Int; Python floats are modelled as
exact rationals (the decimal strings at issue are parsed exactly).  External
libraries (the regex engine, BeautifulSoup primitives) are modelled either by
concrete scanners faithful to the specific patterns in config.py, or by
function-valued fields standing for the compiled pattern, as noted at each
definition.
-/

namespace Cargr

/-- JSON values as produced by json.loads.  A Python `None` entry is
indistinguishable from a missing key through dict.get, so no null
constructor is needed: absent-or-null is `none` at use sites. -/
inductive Json where
  | str (s : String)
  | num (q : ℚ)
  | bool (b : Bool)
  | arr (xs : List Json)
  | obj (fields : List (String × Json))

/-- Python dict lookup (first binding wins; our assoc lists have unique keys
in practice, matching dict semantics). -/
def lookupAssoc {β : Type} : List (String × β) → String → Option β
  | [], _ => none
  | (k, v) :: rest, key => if k = key then some v else lookupAssoc rest key

/-- Python truthiness of a JSON value. -/
def Json.truthy : Json → Bool
  | .str s => s ≠ ""
  | .num q => q ≠ 0
  | .bool b => b
  | .arr xs => !xs.isEmpty
  | .obj f => !f.isEmpty

/-- The path walk of BaseFieldParser.parse (field_parsers.py lines 18-25):
descend only through dicts; a missing key or a non-dict intermediate value
makes the whole path yield None. -/
def walkPath : Json → List String → Option Json
  | v, [] => some v
  | .obj fields, k :: ks =>
    match lookupAssoc fields k with
    | some v => walkPath v ks
    | none => none
  | _, _ :: _ => none

/-- Python str.split(sep) for a single-character separator, as used by
json_path.split in field_parsers.py line 20. -/
def splitDotAux : List Char → List Char → List String
  | [], acc => [⟨acc.reverse⟩]
  | c :: rest, acc =>
    if c = '.' then ⟨acc.reverse⟩ :: splitDotAux rest []
    else splitDotAux rest (c :: acc)

def pySplitDot (s : String) : List String := splitDotAux s.data []

/- ----------------------------------------------------------------
   utils.py: safe_int / safe_float
   ---------------------------------------------------------------- -/

/-- str.replace(old, new) for single characters where new is the empty
string: delete every occurrence of old. -/
def removeChar (old : Char) (s : String) : String := ⟨s.data.filter (· ≠ old)⟩

/-- str.replace(old, new) for single characters. -/
def mapChar (old new : Char) (s : String) : String :=
  ⟨s.data.map (fun c => if c = old then new else c)⟩

def digitsToNat (cs : List Char) : Nat :=
  cs.foldl (fun a c => a * 10 + (c.toNat - '0'.toNat)) 0

def dropSpaces (cs : List Char) : List Char := cs.dropWhile (·.isWhitespace)

/-- Python int(s) on a string: optional surrounding whitespace, optional
sign, one or more decimal digits.  (Numeric-literal underscores, non-ASCII
digits and non-decimal bases are not modelled; no claim exercises them.) -/
def pyParseInt (s : String) : Option Int :=
  let cs := dropSpaces s.data
  let signed : Int × List Char :=
    match cs with
    | '+' :: rest => (1, rest)
    | '-' :: rest => (-1, rest)
    | _ => (1, cs)
  let ds := signed.2.takeWhile Char.isDigit
  let rest := signed.2.dropWhile Char.isDigit
  if ds = [] then none
  else if dropSpaces rest = [] then some (signed.1 * (digitsToNat ds : Int))
  else none

/-- Python float(s) on a string: optional surrounding whitespace, optional
sign, digits with an optional fractional part.  The value is the exact
decimal rational.  (Exponents, inf and nan are not modelled; no claim
exercises them.) -/
def pyParseFloat (s : String) : Option ℚ :=
  let cs := dropSpaces s.data
  let signed : Int × List Char :=
    match cs with
    | '+' :: rest => (1, rest)
    | '-' :: rest => (-1, rest)
    | _ => (1, cs)
  let ip := signed.2.takeWhile Char.isDigit
  let cs1 := signed.2.dropWhile Char.isDigit
  match cs1 with
  | '.' :: cs2 =>
    let fp := cs2.takeWhile Char.isDigit
    let cs3 := cs2.dropWhile Char.isDigit
    if ip = [] ∧ fp = [] then none
    else if dropSpaces cs3 = [] then
      some (mkRat (signed.1 * ((digitsToNat ip * 10 ^ fp.length + digitsToNat fp : Nat) : Int))
        (10 ^ fp.length))
    else none
  | _ =>
    if ip = [] then none
    else if dropSpaces cs1 = [] then some (mkRat (signed.1 * (digitsToNat ip : Int)) 1)
    else none

/-- Python int() truncates a float toward zero. -/
def truncRat (q : ℚ) : Int := if 0 ≤ q then ⌊q⌋ else -⌊-q⌋

/-- utils.safe_int: strings get '.' and ',' stripped (the source locale's
thousands separators) before int(); int of a float truncates; int of a bool
is 0 or 1; anything else (lists, dicts) raises TypeError, which is caught
and becomes None. -/
def safe_int : Json → Option Int
  | .str s => pyParseInt (removeChar ',' (removeChar '.' s))
  | .num q => some (truncRat q)
  | .bool b => some (if b then 1 else 0)
  | _ => none

/-- utils.safe_float: strings get '.' (thousands separator) removed and ','
mapped to '.' (decimal point) before float(); errors are caught and become
None. -/
def safe_float : Json → Option ℚ
  | .str s => pyParseFloat (mapChar ',' '.' (removeChar '.' s))
  | .num q => some q
  | .bool b => some (if b then 1 else 0)
  | _ => none

/- ----------------------------------------------------------------
   field_parsers.py: BaseFieldParser, IntParser, FloatParser,
   ReleaseDateParser
   ---------------------------------------------------------------- -/

/-- BaseFieldParser: an optional dotted JSON-LD path and an optional regex
over the meta description.  The compiled regex is modelled as a function
from the meta string to the first capture group of the first match, the
contract of re.search(...).group(1). -/
structure BaseFieldParser where
  json_path : Option String := none
  regex : Option (String → Option String) := none

/-- The regex fallback branch of BaseFieldParser.parse (lines 30-33). -/
def BaseFieldParser.tryRegex (p : BaseFieldParser) (meta : String) : Option Json :=
  match p.regex with
  | some rx => (rx meta).map Json.str
  | none => none

/-- BaseFieldParser.parse: walk the JSON-LD path first and return a found
non-None value immediately; otherwise fall back to the regex over the meta
description; otherwise None. -/
def BaseFieldParser.parse (p : BaseFieldParser) (json_data : List (String × Json))
    (meta : String) : Option Json :=
  match p.json_path with
  | some jp =>
    match walkPath (.obj json_data) (pySplitDot jp) with
    | some v => some v
    | none => p.tryRegex meta
  | none => p.tryRegex meta

/-- IntParser.parse: the base result routed through safe_int. -/
def IntParser.parse (p : BaseFieldParser) (json_data : List (String × Json))
    (meta : String) : Option Int :=
  (p.parse json_data meta).bind safe_int

/-- FloatParser.parse: the base result routed through safe_float. -/
def FloatParser.parse (p : BaseFieldParser) (json_data : List (String × Json))
    (meta : String) : Option ℚ :=
  (p.parse json_data meta).bind safe_float

/-- ReleaseDateParser: the two-group release-date regex is modelled as a
function returning both capture groups (month, year) of the first match. -/
structure ReleaseDateParser where
  json_path : Option String := none
  regex2 : Option (String → Option (String × String)) := none

/-- The BaseFieldParser view of a ReleaseDateParser: super().parse sees the
same compiled pattern, whose group(1) is the month capture. -/
def ReleaseDateParser.toBase (p : ReleaseDateParser) : BaseFieldParser :=
  { json_path := p.json_path
    regex := p.regex2.map (fun rx s => (rx s).map Prod.fst) }

/-- ReleaseDateParser.parse (field_parsers.py lines 98-106): the regex over
the meta description is tried FIRST and a match is returned as
"month/year"; only on a non-match does it fall back to super().parse (whose
own regex branch then necessarily fails again, leaving the JSON-LD path). -/
def ReleaseDateParser.parse (p : ReleaseDateParser) (json_data : List (String × Json))
    (meta : String) : Option Json :=
  match p.regex2 with
  | some rx =>
    match rx meta with
    | some g => some (.str (g.1 ++ "/" ++ g.2))
    | none => p.toBase.parse json_data meta
  | none => p.toBase.parse json_data meta

/- Concrete scanner for the config.py release-date pattern
   `Χρονολογία:\s*(\d{1,2})\s*/\s*(\d{4})`, implementing re.search. -/

def stripPrefixCh : List Char → List Char → Option (List Char)
  | [], cs => some cs
  | _ :: _, [] => none
  | p :: ps, c :: cs => if c = p then stripPrefixCh ps cs else none

/-- `\d{4}` as a capture: exactly four digits starting here. -/
def matchYear : List Char → Option String
  | a :: b :: c :: d :: _ =>
    if a.isDigit ∧ b.isDigit ∧ c.isDigit ∧ d.isDigit then some ⟨[a, b, c, d]⟩ else none
  | _ => none

/-- `\s*/\s*(\d{4})` starting here. -/
def matchSlashYear (cs : List Char) : Option String :=
  match dropSpaces cs with
  | '/' :: rest => matchYear (dropSpaces rest)
  | _ => none

/-- `(\d{1,2})\s*/\s*(\d{4})` starting here, with the regex engine's greedy
two-digit month attempt and one-digit backtrack. -/
def matchMonthYear : List Char → Option (String × String)
  | [] => none
  | d1 :: rest1 =>
    if d1.isDigit then
      match rest1 with
      | d2 :: rest2 =>
        if d2.isDigit then
          match matchSlashYear rest2 with
          | some y => some (⟨[d1, d2]⟩, y)
          | none => (matchSlashYear rest1).map (fun y => (⟨[d1]⟩, y))
        else (matchSlashYear rest1).map (fun y => (⟨[d1]⟩, y))
      | [] => none
    else none

def matchReleaseFrom (cs : List Char) : Option (String × String) :=
  match stripPrefixCh "Χρονολογία:".data cs with
  | some cs1 => matchMonthYear (dropSpaces cs1)
  | none => none

def releaseSearchAux : List Char → Option (String × String)
  | [] => none
  | c :: cs =>
    match matchReleaseFrom (c :: cs) with
    | some r => some r
    | none => releaseSearchAux cs

/-- re.search with the release_date pattern of config.py: first match in
the string, returning (group 1, group 2). -/
def releaseDateSearch (s : String) : Option (String × String) := releaseSearchAux s.data

/-- The release_date field descriptor of car_parser.py line 43:
ReleaseDateParser(json_ld_path='modelDate', regex=REGEX_PATTERNS['release_date']). -/
def releaseDateField : ReleaseDateParser :=
  { json_path := some "modelDate", regex2 := some releaseDateSearch }

/- ----------------------------------------------------------------
   cache.py: FilterCacheService
   ---------------------------------------------------------------- -/

/-- The mutable state of a FilterCacheService for its single logical key
"filters": the TTLCache entry with its insertion time, the stale snapshot,
and a count of producer invocations so far (used to index the producer's
behaviour; the lock serialises all operations, so the synchronous model is
faithful). -/
structure CacheState (α : Type) where
  cacheVal : Option (α × Nat)
  staleData : Option α
  calls : Nat

def initCacheState {α : Type} : CacheState α := ⟨none, none, 0⟩

/-- TTLCache membership for the single key: the entry is live while
now < insertion time + ttl. -/
def cacheHas {α : Type} (s : CacheState α) (ttl now : Nat) : Bool :=
  match s.cacheVal with
  | some e => now < e.2 + ttl
  | none => false

/-- FilterCacheService._fetch_and_cache: call the producer; on success store
the result in the TTLCache and as the stale snapshot and return it; on
failure return the stale snapshot if one exists, else re-raise.  The
producer is modelled as a function of its invocation index. -/
def fetchAndCache {α ε : Type} (fetcher : Nat → Except ε α) (s : CacheState α)
    (now : Nat) : Except ε α × CacheState α :=
  match fetcher s.calls with
  | .ok fresh => (.ok fresh, ⟨some (fresh, now), some fresh, s.calls + 1⟩)
  | .error e =>
    match s.staleData with
    | some stale => (.ok stale, ⟨s.cacheVal, s.staleData, s.calls + 1⟩)
    | none => (.error e, ⟨s.cacheVal, s.staleData, s.calls + 1⟩)

/-- FilterCacheService.get: an unexpired cached value is returned as-is
unless force_refresh; otherwise refresh via _fetch_and_cache. -/
def cacheGet {α ε : Type} (fetcher : Nat → Except ε α) (ttl : Nat) (s : CacheState α)
    (now : Nat) (force_refresh : Bool) : Except ε α × CacheState α :=
  match s.cacheVal with
  | some e => if ¬ force_refresh ∧ now < e.2 + ttl then (.ok e.1, s) else fetchAndCache fetcher s now
  | none => fetchAndCache fetcher s now

/-- FilterCacheService.warm: one forced refresh; an exception is swallowed
and reported as false. -/
def cacheWarm {α ε : Type} (fetcher : Nat → Except ε α) (ttl : Nat) (s : CacheState α)
    (now : Nat) : Bool × CacheState α :=
  match cacheGet fetcher ttl s now true with
  | (.ok _, s2) => (true, s2)
  | (.error _, s2) => (false, s2)

/-- A sequence of get calls, each with its force_refresh flag and wall-clock
time, run from a given state. -/
def runGets {α ε : Type} (fetcher : Nat → Except ε α) (ttl : Nat) :
    List (Bool × Nat) → CacheState α → CacheState α
  | [], s => s
  | op :: rest, s => runGets fetcher ttl rest (cacheGet fetcher ttl s op.2 op.1).2

/-- The most recent successful producer result among invocations 0..n-1. -/
def lastSuccess {α ε : Type} (fetcher : Nat → Except ε α) : Nat → Option α
  | 0 => none
  | n + 1 =>
    match fetcher n with
    | .ok c => some c
    | .error _ => lastSuccess fetcher n

/-- A producer that succeeds with c on its first invocation and fails on
every later one. -/
def onceThenFail {α : Type} (c : α) : Nat → Except Unit α :=
  fun i => if i = 0 then .ok c else .error ()

def exceptIsOk {α ε : Type} : Except ε α → Bool
  | .ok _ => true
  | .error _ => false

/- ----------------------------------------------------------------
   http_client.py: fetch_with_retry
   ---------------------------------------------------------------- -/

/-- What fetch_with_retry can raise: a transport fault re-raised verbatim,
the HTTPError from response.raise_for_status, or the final generic
exception after the loop exhausts on rate-limiting. -/
inductive FetchErr (ε : Type) where
  | transport (e : ε)
  | httpStatus (code : Nat)
  | exhausted
deriving DecidableEq

/-- config.REQUEST_SETTINGS['max_retries']. -/
def maxRetriesSetting : Nat := 3

/-- The retry loop of fetch_with_retry.  getResp models session.get as a
function of the attempt index: a transport error or a status code.  The
fuel argument counts the loop iterations remaining (maxRetries - attempt)
and keeps the recursion structural; sleeps are irrelevant to the result and
are dropped.  Returns the outcome together with the number of attempts
(session.get calls) executed. -/
def fetchGo {ε : Type} (getResp : Nat → Except ε Nat) (maxRetries : Nat) :
    Nat → Nat → Except (FetchErr ε) Nat × Nat
  | _, 0 => (.error .exhausted, 0)
  | attempt, fuel + 1 =>
    match getResp attempt with
    | .error e =>
      if attempt = maxRetries - 1 then (.error (.transport e), 1)
      else
        let r := fetchGo getResp maxRetries (attempt + 1) fuel
        (r.1, r.2 + 1)
    | .ok status =>
      if status = 429 then
        let r := fetchGo getResp maxRetries (attempt + 1) fuel
        (r.1, r.2 + 1)
      else if 400 ≤ status then
        if attempt = maxRetries - 1 then (.error (.httpStatus status), 1)
        else
          let r := fetchGo getResp maxRetries (attempt + 1) fuel
          (r.1, r.2 + 1)
      else (.ok status, 1)

/-- http_client.fetch_with_retry, returning (outcome, attempts made). -/
def fetch_with_retry {ε : Type} (getResp : Nat → Except ε Nat) (maxRetries : Nat) :
    Except (FetchErr ε) Nat × Nat :=
  fetchGo getResp maxRetries 0 maxRetries

/-- A stub server that answers 429 on the first two attempts and 200 on the
third. -/
def resp429Twice : Nat → Except Unit Nat := fun i => if i ≤ 1 then .ok 429 else .ok 200

/-- A stub server that always answers 500. -/
def resp500Always : Nat → Except Unit Nat := fun _ => .ok 500

/- ----------------------------------------------------------------
   DOM model for the BeautifulSoup primitives used by
   TableValueParser and CarModelParser
   ---------------------------------------------------------------- -/

mutual
inductive Node where
  | text (s : String)
  | elem (tag : String) (classes : List String) (children : NodeList)
inductive NodeList where
  | nil
  | cons (n : Node) (rest : NodeList)
end

/-- Python str.strip(). -/
def pyStrip (s : String) : String :=
  ⟨((s.data.dropWhile (·.isWhitespace)).reverse.dropWhile (·.isWhitespace)).reverse⟩

mutual
/-- All strings of a node in document order (BeautifulSoup .strings). -/
def nodeStrings : Node → List String
  | .text s => [s]
  | .elem _ _ ch => nodeListStrings ch
def nodeListStrings : NodeList → List String
  | .nil => []
  | .cons n rest => nodeStrings n ++ nodeListStrings rest
end

/-- get_text() with no arguments: plain concatenation of all strings. -/
def getTextRaw (n : Node) : String := String.join (nodeStrings n)

/-- get_text(separator, strip=True): each string stripped, empty results
dropped, the rest joined with the separator. -/
def getTextSepStrip (sep : String) (n : Node) : String :=
  String.intercalate sep (((nodeStrings n).map pyStrip).filter (· ≠ ""))

mutual
/-- soup.find(string=pattern): the first text node (in document order)
whose string satisfies the predicate, returned together with its chain of
element ancestors, nearest first. -/
def findStringWithAnc (p : String → Bool) : Node → List Node → Option (List Node × String)
  | .text s, anc => if p s then some (anc, s) else none
  | .elem tag cls ch, anc => findStringInList p ch (.elem tag cls ch :: anc)
def findStringInList (p : String → Bool) : NodeList → List Node → Option (List Node × String)
  | .nil, _ => none
  | .cons n rest, anc =>
    match findStringWithAnc p n anc with
    | some r => some r
    | none => findStringInList p rest anc
end

/-- element.find_parent(class_=cls): nearest ancestor element carrying the
class. -/
def findAncestorWithClass (cls : String) : List Node → Option Node
  | [] => none
  | .elem tag cs ch :: rest =>
    if cls ∈ cs then some (.elem tag cs ch) else findAncestorWithClass cls rest
  | .text _ :: rest => findAncestorWithClass cls rest

/-- row.find_all(recursive=False): the direct children that are tags. -/
def directChildTagsAux : NodeList → List Node
  | .nil => []
  | .cons (.text _) rest => directChildTagsAux rest
  | .cons (.elem tag cls ch) rest => .elem tag cls ch :: directChildTagsAux rest

def directChildTags : Node → List Node
  | .text _ => []
  | .elem _ _ ch => directChildTagsAux ch

mutual
/-- soup.find(name): the first element with the given tag name, in document
order (the searched node itself included, as BeautifulSoup does for
descendants of the soup object; the soup root is a synthetic document
element, modelled by searching its children). -/
def findTagInNode (t : String) : Node → Option Node
  | .text _ => none
  | .elem tag cls ch =>
    if tag = t then some (.elem tag cls ch) else findTagInList t ch
def findTagInList (t : String) : NodeList → Option Node
  | .nil => none
  | .cons n rest =>
    match findTagInNode t n with
    | some r => some r
    | none => findTagInList t rest
end

/- ----------------------------------------------------------------
   Case-insensitive literal matching (the re.IGNORECASE uses)
   ---------------------------------------------------------------- -/

/-- Case folding for the IGNORECASE flag: ASCII letters and the unaccented
Greek capitals (the only alphabets appearing in the patterns at issue). -/
def pyLowerCh (c : Char) : Char :=
  if 'A' ≤ c ∧ c ≤ 'Z' then Char.ofNat (c.toNat + 32)
  else if 'Α' ≤ c ∧ c ≤ 'Ρ' then Char.ofNat (c.toNat + 32)
  else if 'Σ' ≤ c ∧ c ≤ 'Ω' then Char.ofNat (c.toNat + 32)
  else c

def pyLower (s : String) : String := ⟨s.data.map pyLowerCh⟩

def stripPrefixCaseless : List Char → List Char → Option (List Char)
  | [], cs => some cs
  | _ :: _, [] => none
  | p :: ps, c :: cs => if pyLowerCh c = pyLowerCh p then stripPrefixCaseless ps cs else none

/-- re.sub(lit, repl-empty, s, IGNORECASE) for a literal pattern: remove
case-insensitive occurrences left to right, non-overlapping.  Fuel equals
the remaining length, so the recursion is structural; with fuel at least
the length of the list the scan always completes. -/
def removeCaselessAux (pat : List Char) : Nat → List Char → List Char
  | 0, cs => cs
  | _ + 1, [] => []
  | fuel + 1, c :: cs =>
    match stripPrefixCaseless pat (c :: cs) with
    | some rest => removeCaselessAux pat fuel rest
    | none => c :: removeCaselessAux pat fuel cs

def removeCaseless (pat : String) (s : String) : String :=
  if pat.data = [] then s else ⟨removeCaselessAux pat.data s.data.length s.data⟩

/-- str.replace(old, new-empty) for a multi-character literal, same fuel
scheme, case-sensitive. -/
def removeSubstrAllAux (pat : List Char) : Nat → List Char → List Char
  | 0, cs => cs
  | _ + 1, [] => []
  | fuel + 1, c :: cs =>
    match stripPrefixCh pat (c :: cs) with
    | some rest => removeSubstrAllAux pat fuel rest
    | none => c :: removeSubstrAllAux pat fuel cs

def removeSubstrAll (pat : String) (s : String) : String :=
  if pat.data = [] then s else ⟨removeSubstrAllAux pat.data s.data.length s.data⟩

/- ----------------------------------------------------------------
   field_parsers.py: TableValueParser
   ---------------------------------------------------------------- -/

/-- TableValueParser: the compiled label pattern is modelled by the
predicate label_match (re.compile(label_pattern).search as a Bool test,
which is how BeautifulSoup uses it for string filters), while the raw
pattern text is kept for the clean-label computation of line 82. -/
structure TableValue where
  label_pattern : String
  label_match : String → Bool
  output_type : String := "str"

/-- label_pattern.replace('^','').replace('$','').replace('\\s*','')
(field_parsers.py line 82). -/
def cleanedLabel (pattern : String) : String :=
  removeSubstrAll "\\s*" (removeChar '$' (removeChar '^' pattern))

/-- re.sub('^' + clean_label, '', text, IGNORECASE).strip(): strip one
leading (case-insensitive, literal) copy of the label, then strip
whitespace. -/
def stripLeadingLabel (lbl : String) (text : String) : String :=
  match stripPrefixCaseless lbl.data text.data with
  | some rest => pyStrip ⟨rest⟩
  | none => pyStrip text

/-- re.search(r'(\d+)', text): the first maximal run of consecutive
digits. -/
def firstDigitRun : List Char → Option (List Char)
  | [] => none
  | c :: cs => if c.isDigit then some (c :: cs.takeWhile Char.isDigit) else firstDigitRun cs

/-- The int branch of TableValueParser.parse lines 85-87: first digit run
through safe_int, None when the text has no digit. -/
def intFromCellText (text : String) : Option Int :=
  match firstDigitRun text.data with
  | some run => safe_int (.str ⟨run⟩)
  | none => none

/-- TableValueParser.parse (field_parsers.py lines 62-92).  The try/except
that swallows every internal fault is reflected by this being a total
function into Option. -/
def TableValue.parse (p : TableValue) (soup : Node) : Option Json :=
  match findStringWithAnc p.label_match soup [] with
  | none => none
  | some found =>
    match findAncestorWithClass "tw-grid" found.1 with
    | none => none
    | some row =>
      let children := directChildTags row
      if children.length < 2 then none
      else
        match children.getLast? with
        | none => none
        | some valDiv =>
          let text0 := getTextSepStrip " " valDiv
          let text := stripLeadingLabel (cleanedLabel p.label_pattern) text0
          if p.output_type = "int" then (intFromCellText text).map (fun i => Json.num i)
          else some (.str text)

/-- The views descriptor of car_parser.py line 55: the anchored pattern
`^\s*Εμφανίσεις αγγελίας\s*$` matches exactly the strings whose strip
equals the label. -/
def viewsField : TableValue :=
  { label_pattern := "^\\s*Εμφανίσεις αγγελίας\\s*$"
    label_match := fun s => pyStrip s = "Εμφανίσεις αγγελίας"
    output_type := "int" }

/- ----------------------------------------------------------------
   field_parsers.py: CarModelParser
   ---------------------------------------------------------------- -/

/-- \w for the boundary checks, ASCII approximation (the titles at issue
use Latin letters and digits). -/
def isWordCh (c : Char) : Bool := c.isAlphanum || c = '_'

/-- Does `(19|20)\d{2}\b` match here?  Returns the rest after the four
digits. -/
def yearAt : List Char → Option (List Char)
  | a :: b :: c :: d :: rest =>
    if ((a = '1' ∧ b = '9') ∨ (a = '2' ∧ b = '0')) ∧ c.isDigit ∧ d.isDigit ∧
        (match rest with | [] => true | r :: _ => ¬ isWordCh r : Bool) then
      some rest
    else none
  | _ => none

/-- re.sub(r'\b(19|20)\d{2}\b', '', s): remove standalone 4-digit year
tokens, scanning left to right and tracking whether the previous original
character is a word character (the left \b). -/
def removeYearsAux : Nat → Bool → List Char → List Char
  | 0, _, cs => cs
  | _ + 1, _, [] => []
  | fuel + 1, prevW, c :: cs =>
    if ¬ prevW then
      match yearAt (c :: cs) with
      | some rest => removeYearsAux fuel true rest
      | none => c :: removeYearsAux fuel (isWordCh c) cs
    else c :: removeYearsAux fuel (isWordCh c) cs

def removeYears (s : String) : String := ⟨removeYearsAux s.data.length false s.data⟩

def stopwordList : List String := ["Professional", "Edition", "Pack", "Sport"]

/-- Does one of the stopwords match here case-insensitively with a right
word boundary?  Alternatives are tried in pattern order. -/
def stopwordAt : List String → List Char → Option (List Char)
  | [], _ => none
  | w :: ws, cs =>
    match stripPrefixCaseless w.data cs with
    | some rest =>
      match rest with
      | [] => some rest
      | r :: _ => if ¬ isWordCh r then some rest else stopwordAt ws cs
    | none => stopwordAt ws cs

/-- re.sub(r'\b(Professional|Edition|Pack|Sport)\b', '', s, IGNORECASE). -/
def removeStopwordsAux : Nat → Bool → List Char → List Char
  | 0, _, cs => cs
  | _ + 1, _, [] => []
  | fuel + 1, prevW, c :: cs =>
    if ¬ prevW then
      match stopwordAt stopwordList (c :: cs) with
      | some rest => removeStopwordsAux fuel true rest
      | none => c :: removeStopwordsAux fuel (isWordCh c) cs
    else c :: removeStopwordsAux fuel (isWordCh c) cs

def removeStopwords (s : String) : String := ⟨removeStopwordsAux s.data.length false s.data⟩

/-- Python str.split() with no argument: whitespace-delimited tokens,
empties dropped. -/
def wsSplitAux : List Char → List Char → List String
  | [], cur => if cur = [] then [] else [⟨cur.reverse⟩]
  | c :: cs, cur =>
    if c.isWhitespace then
      if cur = [] then wsSplitAux cs [] else ⟨cur.reverse⟩ :: wsSplitAux cs []
    else wsSplitAux cs (c :: cur)

def pyWsSplit (s : String) : List String := wsSplitAux s.data []

/-- json_data.get('brand', {}).get('name'): raises AttributeError (swallowed
by the surrounding try) when 'brand' maps to a non-dict. -/
def brandNameLookup (json_data : List (String × Json)) : Except Unit (Option Json) :=
  match lookupAssoc json_data "brand" with
  | some (.obj f) => .ok (lookupAssoc f "name")
  | some _ => .error ()
  | none => .ok none

/-- `a or b` where a is an optional JSON value and b an optional fallback:
first truthy wins. -/
def jsonOrElse (a : Option Json) (b : Option Json) : Option Json :=
  match a with
  | some v => if v.truthy then some v else b
  | none => b

/-- CarModelParser.parse (field_parsers.py lines 129-160): a truthy 'model'
field is returned directly; otherwise the model token is inferred from the
title by removing the make (case-insensitive), standalone 4-digit years and
the marketing stopwords, and keeping the first whitespace token.  All
exceptional paths inside the source's try are mapped to none, and the
function is total, reflecting that the inference never raises. -/
def carModelParse (json_data : List (String × Json)) (soup : Node) : Option Json :=
  match jsonOrElse (lookupAssoc json_data "model") none with
  | some v => some v
  | none =>
    let title : Json :=
      match jsonOrElse (lookupAssoc json_data "name") none with
      | some v => v
      | none =>
        match findTagInNode "title" soup with
        | some t => .str (getTextRaw t)
        | none => .str ""
    let makeRes : Except Unit (Option Json) :=
      match jsonOrElse (lookupAssoc json_data "manufacturer") none with
      | some v => .ok (some v)
      | none => brandNameLookup json_data
    match makeRes with
    | .error _ => none
    | .ok makeOpt =>
      match makeOpt with
      | some make =>
        if title.truthy ∧ make.truthy then
          match title, make with
          | .str t, .str m =>
            let ct1 := pyStrip (removeCaseless m t)
            let ct2 := pyStrip (removeYears ct1)
            let ct3 := pyStrip (removeStopwords ct2)
            if ct3 ≠ "" then
              match pyWsSplit ct3 with
              | tok :: _ => some (.str tok)
              | [] => none
            else none
          | _, _ => none
        else none
      | none => none

/- ----------------------------------------------------------------
   filter_parser.py: FilterDiscoveryParser
   ---------------------------------------------------------------- -/

structure FilterOption where
  label : String
  value : String
  count : Option Nat := none
deriving DecidableEq

structure FilterDefinition where
  query_param : String
  label : String
  type : String
  options : List FilterOption
deriving DecidableEq

/-- One option tag of a select: its value attribute (absent when the tag
has none) and its stripped text. -/
structure RawSelectOption where
  value : Option String
  text : String

/-- One button inside a button-group container. -/
structure RawButton where
  text : String
  value : Option String

/-- One c-checkbox-wrapper div: the (value, name) attributes of its input
tag when one exists, and its label text when a label exists. -/
structure RawCheckbox where
  inputAttrs : Option (Option String × Option String)
  labelText : Option String

/-- The parts of the search-form document that FilterDiscoveryParser.get_filters
reads: the selects in document order with their option tags, the
button-group containers addressable by id, and the checkbox wrappers. -/
structure SearchDoc where
  selects : List (List RawSelectOption)
  buttonContainers : List (String × List RawButton)
  checkboxes : List RawCheckbox

/-- Does `\((\d+[\.\d]*)\)` match at this position?  Returns the capture
group.  (The regex backtracking degenerates: the characters of the greedy
class never equal the closing parenthesis, so only the maximal run can be
followed by one.) -/
def countAt : List Char → Option (List Char)
  | '(' :: d :: rest2 =>
    if d.isDigit then
      let run := rest2.takeWhile (fun c => c = '.' ∨ c.isDigit)
      match rest2.dropWhile (fun c => c = '.' ∨ c.isDigit) with
      | ')' :: _ => some (d :: run)
      | _ => none
    else none
  | _ => none

/-- _extract_count: re.search(r'\((\d+[\.\d]*)\)', text), then
int(group.replace('.', '')). -/
def extractCountAux : List Char → Option Nat
  | [] => none
  | c :: cs =>
    match countAt (c :: cs) with
    | some g => some (digitsToNat (g.filter (· ≠ '.')))
    | none => extractCountAux cs

def extract_count (s : String) : Option Nat := extractCountAux s.data

/-- Does `\s*\(\d+[\.\d]*\)$` match from this position to the end? -/
def countSuffixFrom (cs : List Char) : Bool :=
  match dropSpaces cs with
  | '(' :: d :: rest2 =>
    d.isDigit && (rest2.dropWhile (fun c => c = '.' ∨ c.isDigit) = [')'])
  | _ => false

def cleanLabelAux : List Char → List Char
  | [] => []
  | c :: cs => if countSuffixFrom (c :: cs) then [] else c :: cleanLabelAux cs

/-- _clean_label: re.sub(r'\s*\(\d+[\.\d]*\)$', '', text).strip(). -/
def clean_label (s : String) : String := pyStrip ⟨cleanLabelAux s.data⟩

def placeholderTexts : List String := ["Όλα", "Από", "Έως", "-", "Μάρκα", "Μοντέλο"]

/-- The body of the option loop of _parse_options_from_select: skip options
with a falsy value or falsy/placeholder text, otherwise build the
FilterOption. -/
def optOfRaw (o : RawSelectOption) : Option FilterOption :=
  match o.value with
  | none => none
  | some v =>
    if v = "" ∨ o.text = "" ∨ o.text ∈ placeholderTexts then none
    else some ⟨clean_label o.text, v, extract_count o.text⟩

/-- _parse_options_from_select as the source's accumulation loop. -/
def parseOptionsFromSelect : List RawSelectOption → List FilterOption
  | [] => []
  | o :: rest =>
    match optOfRaw o with
    | some fo => fo :: parseOptionsFromSelect rest
    | none => parseOptionsFromSelect rest

/-- Substring containment, Python `pat in s`. -/
def containsSubAux (pat : List Char) : List Char → Bool
  | [] => (stripPrefixCh pat []).isSome
  | c :: cs => (stripPrefixCh pat (c :: cs)).isSome || containsSubAux pat cs

def containsSub (pat : String) (s : String) : Bool := containsSubAux pat.data s.data

/-- _identify_filter_type: the ordered signature-rule table over the
lowered labels and the values. -/
def identifyFilterType (opts : List FilterOption) : Option String :=
  let labels := opts.map (fun o => pyLower o.label)
  let values := opts.map (fun o => o.value)
  if labels.any (fun l => containsSub "βενζίνη" l) ∧ labels.any (fun l => containsSub "πετρέλαιο" l) then
    some "fuel_type"
  else if labels.any (fun l => containsSub "euro 6" l) ∧ labels.any (fun l => containsSub "euro 5" l) then
    some "euroclass"
  else if "ασημί" ∈ labels ∧ "μαύρο" ∈ labels ∧ "κόκκινο" ∈ labels then some "exterior_color"
  else if "μεταλλικό" ∈ labels ∧ "ματ" ∈ labels then some "exterior_color_type"
  else if "μπεζ" ∈ labels ∧ "γκρι" ∈ labels ∧ "δίχρωμο" ∈ labels then some "interior_color"
  else if "alcantara" ∈ labels ∧ "βελούδο" ∈ labels then some "interior_type"
  else if "με φωτογραφίες" ∈ labels then some "media_types"
  else if labels.any (fun l => containsSub "πάνω από 1 χρόνο" l) then some "kteo"
  else if "μονή" ∈ labels ∧ "ζυγή" ∈ labels then some "number_plate_ending"
  else if "audi" ∈ labels ∧ "bmw" ∈ labels then some "make"
  else if "2/3" ∈ labels ∧ "4/5" ∈ labels then some "doors"
  else if "2" ∈ values ∧ "4" ∈ values ∧ "5" ∈ values ∧ 5 < values.length then some "seats"
  else none

/-- The labels dict of get_filters lines 178-191, with its .get default. -/
def labelForType (ft : String) : String :=
  if ft = "make" then "Μάρκα"
  else if ft = "fuel_type" then "Καύσιμο"
  else if ft = "euroclass" then "Κλάση Ρύπων"
  else if ft = "exterior_color" then "Χρώμα Εξωτερικό"
  else if ft = "exterior_color_type" then "Τύπος Χρώματος"
  else if ft = "interior_color" then "Χρώμα Εσωτερικό"
  else if ft = "interior_type" then "Σαλόνι"
  else if ft = "media_types" then "Πολυμέσα"
  else if ft = "kteo" then "ΚΤΕΟ"
  else if ft = "number_plate_ending" then "Πινακίδα"
  else if ft = "doors" then "Πόρτες"
  else if ft = "seats" then "Θέσεις"
  else ft

/-- The value_map of _parse_button_group lines 125-137. -/
def buttonValueMap (t : String) : Option String :=
  if t = "Χειροκίνητο" then some "manual"
  else if t = "Αυτόματο" then some "automatic"
  else if t = "Ημιαυτόματο" then some "semi_automatic"
  else if t = "Προσθιοκίνητο (FWD)" then some "fwd"
  else if t = "Πισωκίνητο (RWD)" then some "rwd"
  else if t = "Τετρακίνητο (4x4)" then some "4x4"
  else if t = "Έμπορος" then some "dealer"
  else if t = "Ιδιώτης" then some "private"
  else if t = "Όλα" then some ""
  else if t = "Με ζημιά" then some "t"
  else if t = "Χωρίς ζημιά" then some "f"
  else none

/-- `btn.get('value') or value_map.get(text)`. -/
def btnValue (b : RawButton) : Option String :=
  match b.value with
  | some v => if v = "" then buttonValueMap b.text else some v
  | none => buttonValueMap b.text

/-- The button loop body: keep the option when text and value are truthy
(the explicit `value != ""` check repeats the truthiness test). -/
def btnOpt (b : RawButton) : Option FilterOption :=
  match btnValue b with
  | some v => if b.text ≠ "" ∧ v ≠ "" then some ⟨b.text, v, none⟩ else none
  | none => none

def buttonsToOptions : List RawButton → List FilterOption
  | [] => []
  | b :: rest =>
    match btnOpt b with
    | some o => o :: buttonsToOptions rest
    | none => buttonsToOptions rest

/-- _parse_button_group: locate the container by id (empty list when
absent) and map each button through the label→value table. -/
def parseButtonGroup (doc : SearchDoc) (cid : String) : List FilterOption :=
  match lookupAssoc doc.buttonContainers cid with
  | none => []
  | some btns => buttonsToOptions btns

/-- `inp.get('value') or inp.get('name')` followed by the truthiness test
of the feature guard; a falsy final result never passes the guard, so it is
collapsed to none. -/
def checkboxValue (b : RawCheckbox) : Option (String × String) :=
  match b.inputAttrs, b.labelText with
  | some attrs, some lbl =>
    let val : Option String :=
      match attrs.1 with
      | some v => if v = "" then (match attrs.2 with
          | some n => if n = "" then none else some n
          | none => none)
        else some v
      | none =>
        match attrs.2 with
        | some n => if n = "" then none else some n
        | none => none
    match val with
    | some v => some (v, lbl)
    | none => none
  | _, _ => none

/-- The feature validity heuristic: val.isdigit() and len(val) >= 3. -/
def featValid (v : String) : Bool :=
  v.data ≠ [] && v.data.all Char.isDigit && decide (3 ≤ v.data.length)

/-- The collection loop of _parse_features with its seen-set
deduplication. -/
def collectFeatures : List RawCheckbox → List String → List FilterOption
  | [], _ => []
  | b :: rest, seen =>
    match checkboxValue b with
    | some vl =>
      if featValid vl.1 ∧ vl.1 ∉ seen then
        ⟨vl.2, vl.1, none⟩ :: collectFeatures rest (vl.1 :: seen)
      else collectFeatures rest seen
    | none => collectFeatures rest seen

/-- Stable insertion by label: the new element goes after every strictly
smaller label and before the first equal-or-larger one, matching the
stable sort of sorted(key=label). -/
def insertByLabel (o : FilterOption) : List FilterOption → List FilterOption
  | [] => [o]
  | x :: xs => if x.label < o.label then x :: insertByLabel o xs else o :: x :: xs

def sortByLabel : List FilterOption → List FilterOption
  | [] => []
  | x :: xs => insertByLabel x (sortByLabel xs)

/-- _parse_features: collect, deduplicate by value, sort by label. -/
def parseFeatures (boxes : List RawCheckbox) : List FilterOption :=
  sortByLabel (collectFeatures boxes [])

/-- Python dict assignment filters[k] = v: replace in place when the key
exists, else append. -/
def dictInsert : List (String × FilterDefinition) → String → FilterDefinition →
    List (String × FilterDefinition)
  | [], k, v => [(k, v)]
  | (k0, v0) :: rest, k, v =>
    if k0 = k then (k0, v) :: rest else (k0, v0) :: dictInsert rest k v

def mkSelectDef (ft : String) (opts : List FilterOption) : FilterDefinition :=
  ⟨ft, labelForType ft, "select", opts⟩

/-- The select loop of get_filters lines 171-198: skip selects with no
usable options or no identified type, and never overwrite an already
assigned category. -/
def selectPhase : List (List RawSelectOption) → List (String × FilterDefinition) →
    List (String × FilterDefinition)
  | [], fs => fs
  | sel :: rest, fs =>
    let opts := parseOptionsFromSelect sel
    if opts = [] then selectPhase rest fs
    else
      match identifyFilterType opts with
      | some ft =>
        if (lookupAssoc fs ft).isSome then selectPhase rest fs
        else selectPhase rest (dictInsert fs ft (mkSelectDef ft opts))
      | none => selectPhase rest fs

def buttonConfigs : List (String × String) :=
  [("gearbox_type", "Σασμάν"), ("drive_type", "Κίνηση"), ("seller_type", "Τύπος Πωλητή"),
   ("crashed", "Ζημιά"), ("audit_options", "Τεχνικοί Έλεγχοι")]

/-- The button-group loop of get_filters lines 208-216. -/
def buttonPhase (doc : SearchDoc) : List (String × String) →
    List (String × FilterDefinition) → List (String × FilterDefinition)
  | [], fs => fs
  | cfg :: rest, fs =>
    let opts := parseButtonGroup doc cfg.1
    if opts = [] then buttonPhase doc rest fs
    else buttonPhase doc rest (dictInsert fs cfg.1 ⟨cfg.1, cfg.2, "button_group", opts⟩)

/-- The feature block of get_filters lines 218-225. -/
def featurePhase (doc : SearchDoc) (fs : List (String × FilterDefinition)) :
    List (String × FilterDefinition) :=
  let feats := parseFeatures doc.checkboxes
  if feats = [] then fs
  else dictInsert fs "feature" ⟨"feature", "Ιδιαιτερότητες / Έξτρα", "checkbox", feats⟩

def rangeConfigs : List (String × String) :=
  [("price", "Τιμή (€)"), ("registration", "Χρονολογία"), ("mileage", "Χιλιόμετρα"),
   ("engine_size", "Κυβικά (cc)"), ("engine_power", "Ιπποδύναμη (bhp)")]

/-- The range loop of get_filters lines 234-240. -/
def rangePhase : List (String × String) → List (String × FilterDefinition) →
    List (String × FilterDefinition)
  | [], fs => fs
  | cfg :: rest, fs =>
    rangePhase rest
      (dictInsert fs cfg.1 ⟨cfg.1 ++ "-from / " ++ cfg.1 ++ "-to", cfg.2, "range", []⟩)

/-- FilterDiscoveryParser.get_filters: the four phases over the Python dict,
modelled as an insertion-ordered association list. -/
def get_filters (doc : SearchDoc) : List (String × FilterDefinition) :=
  rangePhase rangeConfigs (featurePhase doc (buttonPhase doc buttonConfigs
    (selectPhase doc.selects [])))

/- Append-only twin used to state the no-overwrite invariant: identical to
get_filters except that every dict assignment is a plain append.  The two
agree exactly when no assignment ever hits an existing key. -/

def selectPhaseApp : List (List RawSelectOption) → List (String × FilterDefinition) →
    List (String × FilterDefinition)
  | [], fs => fs
  | sel :: rest, fs =>
    let opts := parseOptionsFromSelect sel
    if opts = [] then selectPhaseApp rest fs
    else
      match identifyFilterType opts with
      | some ft =>
        if (lookupAssoc fs ft).isSome then selectPhaseApp rest fs
        else selectPhaseApp rest (fs ++ [(ft, mkSelectDef ft opts)])
      | none => selectPhaseApp rest fs

def buttonPhaseApp (doc : SearchDoc) : List (String × String) →
    List (String × FilterDefinition) → List (String × FilterDefinition)
  | [], fs => fs
  | cfg :: rest, fs =>
    let opts := parseButtonGroup doc cfg.1
    if opts = [] then buttonPhaseApp doc rest fs
    else buttonPhaseApp doc rest (fs ++ [(cfg.1, ⟨cfg.1, cfg.2, "button_group", opts⟩)])

def featurePhaseApp (doc : SearchDoc) (fs : List (String × FilterDefinition)) :
    List (String × FilterDefinition) :=
  let feats := parseFeatures doc.checkboxes
  if feats = [] then fs
  else fs ++ [("feature", ⟨"feature", "Ιδιαιτερότητες / Έξτρα", "checkbox", feats⟩)]

def rangePhaseApp : List (String × String) → List (String × FilterDefinition) →
    List (String × FilterDefinition)
  | [], fs => fs
  | cfg :: rest, fs =>
    rangePhaseApp rest
      (fs ++ [(cfg.1, ⟨cfg.1 ++ "-from / " ++ cfg.1 ++ "-to", cfg.2, "range", []⟩)])

def get_filtersApp (doc : SearchDoc) : List (String × FilterDefinition) :=
  rangePhaseApp rangeConfigs (featurePhaseApp doc (buttonPhaseApp doc buttonConfigs
    (selectPhaseApp doc.selects [])))

/-- The twelve category names the signature rules can produce. -/
def selectCategoryNames : List String :=
  ["fuel_type", "euroclass", "exterior_color", "exterior_color_type", "interior_color",
   "interior_type", "media_types", "kteo", "number_plate_ending", "make", "doors", "seats"]

/- ================================================================
   Theorems
   ================================================================ -/

/-- C3: with max_retries = 3, a server answering 429 twice and then 200
leads to exactly 3 attempts and the successful response, and a server
always answering 500 leads to exactly max_retries = 3 attempts and a raised
error. -/
theorem c3_fetch_retry_budget :
    fetch_with_retry resp429Twice maxRetriesSetting = (.ok 200, 3) ∧
    fetch_with_retry resp500Always maxRetriesSetting = (.error (.httpStatus 500), 3) :=
  ⟨rfl, rfl⟩

/-- Helper: a string with no digit has no digit run. -/
theorem firstDigitRun_eq_none {cs : List Char} (h : ∀ c ∈ cs, ¬ c.isDigit) :
    firstDigitRun cs = none := by
  induction cs with
  | nil => rfl
  | cons c cs ih =>
    have hc : ¬ c.isDigit := h c (List.mem_cons_self c cs)
    simp only [firstDigitRun, hc, if_neg, Bool.false_eq_true, if_false]
    exact ih fun x hx => h x (List.mem_cons_of_mem c hx)

/-- C4: the locale-aware coercions: float "12.345,67" is exactly 12345.67,
int "12.345" is 12345, and any string whose cleaned form does not parse
yields none (absent) for both coercions instead of an error. -/
theorem c4_locale_numeric_coercion :
    safe_float (.str "12.345,67") = some (12345.67 : ℚ) ∧
    safe_int (.str "12.345") = some 12345 ∧
    safe_int (.str "abc") = none ∧
    safe_float (.str "abc") = none ∧
    (∀ s : String, pyParseInt (removeChar ',' (removeChar '.' s)) = none →
      safe_int (.str s) = none) ∧
    (∀ s : String, pyParseFloat (mapChar ',' '.' (removeChar '.' s)) = none →
      safe_float (.str s) = none) := by
  refine ⟨?_, by decide, rfl, rfl, fun s h => h, fun s h => h⟩
  have h : safe_float (.str "12.345,67") = some (mkRat 1234567 100) := by rfl
  rw [h]
  norm_num [Rat.mkRat_eq_div]

/-- Witness for C4 at the concrete non-numeric string "abc". -/
theorem c4_locale_numeric_coercion_witness :
    safe_int (.str "abc") = none ∧ safe_float (.str "abc") = none :=
  ⟨c4_locale_numeric_coercion.2.2.2.2.1 "abc" (by decide),
   c4_locale_numeric_coercion.2.2.2.2.2 "abc" (by decide)⟩

/-- C8: on structured data with name "BMW 320d 2019" and manufacturer "BMW"
and no model field, the model inference strips the make and the year and
returns the first remaining token "320d"; the embedded inference is a total
function (the source's try/except guarantees it never raises). -/
theorem c8_model_inference :
    carModelParse [("name", Json.str "BMW 320d 2019"), ("manufacturer", Json.str "BMW")]
      (.elem "html" [] .nil) = some (.str "320d") := rfl

/-- C10: the int branch of the table locator keeps only the first maximal
digit run, so the cell text "1.234" yields 1 (not 1234); a cell with no
digit yields absent.  Shown both on the branch function and end to end on
the views descriptor over a concrete grid row. -/
theorem c10_table_int_first_digit_run :
    intFromCellText "1.234" = some 1 ∧
    (∀ s : String, (∀ c ∈ s.data, ¬ c.isDigit) → intFromCellText s = none) ∧
    TableValue.parse viewsField
      (.elem "div" ["tw-grid"]
        (.cons (.elem "div" [] (.cons (.text "Εμφανίσεις αγγελίας") .nil))
          (.cons (.elem "div" [] (.cons (.text "1.234") .nil)) .nil))) =
      some (.num 1) ∧
    TableValue.parse viewsField
      (.elem "div" ["tw-grid"]
        (.cons (.elem "div" [] (.cons (.text "Εμφανίσεις αγγελίας") .nil))
          (.cons (.elem "div" [] (.cons (.text "καμία τιμή") .nil)) .nil))) = none := by
  refine ⟨rfl, ?_, rfl, rfl⟩
  intro s h
  unfold intFromCellText
  rw [firstDigitRun_eq_none h]

/-- Witness for C10 at the digit-free cell text "abc". -/
theorem c10_table_int_first_digit_run_witness : intFromCellText "abc" = none :=
  c10_table_int_first_digit_run.2.1 "abc" (by decide)

/-- Helper: the structured-data priority of BaseFieldParser.parse. -/
theorem baseParse_of_walkPath (p : BaseFieldParser) (json_data : List (String × Json))
    (meta : String) (jp : String) (v : Json) (h1 : p.json_path = some jp)
    (h2 : walkPath (.obj json_data) (pySplitDot jp) = some v) :
    p.parse json_data meta = some v := by
  simp only [BaseFieldParser.parse, h1, h2]

/-- C1 counterexample: on the release_date descriptor, with modelDate
present in the structured data AND the text pattern matching the meta
description, parse returns the regex composite "5/2019", not the walked
structured-data value "2018" — the text-pattern strategy wins, refuting the
claim for release_date. -/
theorem c1_counterexample :
    ReleaseDateParser.parse releaseDateField [("modelDate", Json.str "2018")]
      "Χρονολογία: 5/2019" = some (.str "5/2019") ∧
    walkPath (.obj [("modelDate", Json.str "2018")]) (pySplitDot "modelDate") =
      some (.str "2018") ∧
    ReleaseDateParser.parse releaseDateField [("modelDate", Json.str "2018")]
      "Χρονολογία: 5/2019" ≠ some (.str "2018") := by
  refine ⟨rfl, rfl, fun h => ?_⟩
  have h1 : some (Json.str "5/2019") = some (Json.str "2018") := h
  injection h1 with h2
  injection h2 with h3
  exact absurd h3 (by decide)

/-- C1 (amended): for the base, integer and float field parsers a non-null
structured-data path value is returned immediately (after the declared
numeric coercion), regardless of the text pattern; for release_date the
text pattern is tried first, and the structured-data path value is
returned only when the pattern does not match the meta description. -/
theorem c1_structured_data_priority :
    (∀ (p : BaseFieldParser) (json_data : List (String × Json)) (meta : String)
        (jp : String) (v : Json), p.json_path = some jp →
        walkPath (.obj json_data) (pySplitDot jp) = some v →
        p.parse json_data meta = some v) ∧
    (∀ (p : BaseFieldParser) (json_data : List (String × Json)) (meta : String)
        (jp : String) (v : Json), p.json_path = some jp →
        walkPath (.obj json_data) (pySplitDot jp) = some v →
        IntParser.parse p json_data meta = safe_int v) ∧
    (∀ (p : BaseFieldParser) (json_data : List (String × Json)) (meta : String)
        (jp : String) (v : Json), p.json_path = some jp →
        walkPath (.obj json_data) (pySplitDot jp) = some v →
        FloatParser.parse p json_data meta = safe_float v) ∧
    (∀ (p : ReleaseDateParser) (json_data : List (String × Json)) (meta : String)
        (rx : String → Option (String × String)) (g : String × String),
        p.regex2 = some rx → rx meta = some g →
        p.parse json_data meta = some (.str (g.1 ++ "/" ++ g.2))) ∧
    (∀ (p : ReleaseDateParser) (json_data : List (String × Json)) (meta : String)
        (rx : String → Option (String × String)) (jp : String) (v : Json),
        p.regex2 = some rx → rx meta = none → p.json_path = some jp →
        walkPath (.obj json_data) (pySplitDot jp) = some v →
        p.parse json_data meta = some v) := by
  refine ⟨baseParse_of_walkPath, ?_, ?_, ?_, ?_⟩
  · intro p json_data meta jp v h1 h2
    show (p.parse json_data meta).bind safe_int = safe_int v
    rw [baseParse_of_walkPath p json_data meta jp v h1 h2, Option.some_bind]
  · intro p json_data meta jp v h1 h2
    show (p.parse json_data meta).bind safe_float = safe_float v
    rw [baseParse_of_walkPath p json_data meta jp v h1 h2, Option.some_bind]
  · intro p json_data meta rx g h1 h2
    simp only [ReleaseDateParser.parse, h1, h2]
  · intro p json_data meta rx jp v h1 h2 h3 h4
    simp only [ReleaseDateParser.parse, h1, h2]
    exact baseParse_of_walkPath _ json_data meta jp v h3 h4

/-- Witness for C1 (amended) at concrete descriptors: a base parser and an
int parser with path "name", and the release_date descriptor both on a
matching meta and on a non-matching one. -/
theorem c1_structured_data_priority_witness :
    BaseFieldParser.parse ⟨some "name", none⟩ [("name", Json.str "X")] "" =
      some (.str "X") ∧
    IntParser.parse ⟨some "n", none⟩ [("n", Json.str "7")] "" = safe_int (.str "7") ∧
    FloatParser.parse ⟨some "n", none⟩ [("n", Json.str "7")] "" = safe_float (.str "7") ∧
    ReleaseDateParser.parse releaseDateField [] "Χρονολογία: 5/2019" =
      some (Json.str ("5" ++ "/" ++ "2019")) ∧
    ReleaseDateParser.parse releaseDateField [("modelDate", Json.str "2018")] "τίποτα" =
      some (.str "2018") :=
  ⟨c1_structured_data_priority.1 ⟨some "name", none⟩ _ "" "name" (Json.str "X") rfl rfl,
   c1_structured_data_priority.2.1 ⟨some "n", none⟩ _ "" "n" (Json.str "7") rfl rfl,
   c1_structured_data_priority.2.2.1 ⟨some "n", none⟩ _ "" "n" (Json.str "7") rfl rfl,
   c1_structured_data_priority.2.2.2.1 releaseDateField [] "Χρονολογία: 5/2019"
     releaseDateSearch ("5", "2019") rfl rfl,
   c1_structured_data_priority.2.2.2.2 releaseDateField _ "τίποτα" releaseDateSearch
     "modelDate" (Json.str "2018") rfl rfl rfl rfl⟩

/-- C7: the table locator returns absent (never an error: the embedded
parse is a total function into Option, reflecting the source's try/except
boundary) whenever the label string is not found, or no tw-grid row
ancestor exists, or the row has fewer than two direct child tags. -/
theorem c7_table_locator_absent_cases :
    ∀ (p : TableValue) (soup : Node),
      (findStringWithAnc p.label_match soup [] = none ∨
        (∃ anc s, findStringWithAnc p.label_match soup [] = some (anc, s) ∧
          findAncestorWithClass "tw-grid" anc = none) ∨
        (∃ anc s row, findStringWithAnc p.label_match soup [] = some (anc, s) ∧
          findAncestorWithClass "tw-grid" anc = some row ∧
          (directChildTags row).length < 2)) →
      TableValue.parse p soup = none := by
  intro p soup h
  rcases h with h1 | ⟨anc, s, h1, h2⟩ | ⟨anc, s, row, h1, h2, h3⟩
  · simp only [TableValue.parse, h1]
  · simp only [TableValue.parse, h1, h2]
  · simp only [TableValue.parse, h1, h2, if_pos h3]

/-- Witness for C7: a document without the label, one without a tw-grid
ancestor, and a grid row with a single child. -/
theorem c7_table_locator_absent_cases_witness :
    TableValue.parse ⟨"L", fun s => s = "L", "str"⟩ (.text "x") = none ∧
    TableValue.parse ⟨"L", fun s => s = "L", "str"⟩
      (.elem "div" [] (.cons (.text "L") .nil)) = none ∧
    TableValue.parse ⟨"L", fun s => s = "L", "str"⟩
      (.elem "div" ["tw-grid"] (.cons (.text "L") .nil)) = none :=
  ⟨c7_table_locator_absent_cases _ _ (Or.inl rfl),
   c7_table_locator_absent_cases _ _ (Or.inr (Or.inl
     ⟨[Node.elem "div" [] (.cons (.text "L") .nil)], "L", rfl, rfl⟩)),
   c7_table_locator_absent_cases _ _ (Or.inr (Or.inr
     ⟨[Node.elem "div" ["tw-grid"] (.cons (.text "L") .nil)], "L",
      Node.elem "div" ["tw-grid"] (.cons (.text "L") .nil), rfl, rfl, by decide⟩))⟩

/-- Helper: a forced get always refreshes. -/
theorem cacheGet_force_eq {α ε : Type} (fetcher : Nat → Except ε α) (ttl : Nat)
    (s : CacheState α) (now : Nat) :
    cacheGet fetcher ttl s now true = fetchAndCache fetcher s now := by
  simp only [cacheGet]
  cases s.cacheVal with
  | none => rfl
  | some e => simp

/-- Helper: one refresh preserves the invariant that the stale snapshot is
the most recent successful producer result. -/
theorem fetchAndCache_stale_inv {α ε : Type} (fetcher : Nat → Except ε α)
    (s : CacheState α) (now : Nat) (h : s.staleData = lastSuccess fetcher s.calls) :
    (fetchAndCache fetcher s now).2.staleData =
      lastSuccess fetcher (fetchAndCache fetcher s now).2.calls := by
  unfold fetchAndCache
  cases hf : fetcher s.calls with
  | ok c => simp [lastSuccess, hf]
  | error e =>
    cases hs : s.staleData with
    | some st =>
      rw [hs] at h
      simp [lastSuccess, hf, ← h]
    | none =>
      rw [hs] at h
      simp [lastSuccess, hf, ← h]

/-- Helper: any get call preserves the stale-snapshot invariant. -/
theorem cacheGet_stale_inv {α ε : Type} (fetcher : Nat → Except ε α) (ttl : Nat)
    (s : CacheState α) (now : Nat) (force : Bool)
    (h : s.staleData = lastSuccess fetcher s.calls) :
    (cacheGet fetcher ttl s now force).2.staleData =
      lastSuccess fetcher (cacheGet fetcher ttl s now force).2.calls := by
  simp only [cacheGet]
  cases s.cacheVal with
  | none => exact fetchAndCache_stale_inv fetcher s now h
  | some e =>
    dsimp only
    by_cases hc : ¬ force = true ∧ now < e.2 + ttl
    · rw [if_pos hc]
      exact h
    · rw [if_neg hc]
      exact fetchAndCache_stale_inv fetcher s now h

/-- Helper: the stale-snapshot invariant holds after any sequence of get
calls from the initial state. -/
theorem runGets_stale_inv {α ε : Type} (fetcher : Nat → Except ε α) (ttl : Nat) :
    ∀ (ops : List (Bool × Nat)) (s : CacheState α),
      s.staleData = lastSuccess fetcher s.calls →
      (runGets fetcher ttl ops s).staleData =
        lastSuccess fetcher (runGets fetcher ttl ops s).calls
  | [], _, h => h
  | op :: rest, s, h =>
    runGets_stale_inv fetcher ttl rest (cacheGet fetcher ttl s op.2 op.1).2
      (cacheGet_stale_inv fetcher ttl s op.2 op.1 h)

/-- Helper: with a succeed-once-then-fail producer, the last success after
at least one call is the first result. -/
theorem lastSuccess_onceThenFail {α : Type} (c : α) :
    ∀ n : Nat, 1 ≤ n → lastSuccess (onceThenFail c) n = some c := by
  intro n hn
  induction n with
  | zero => omega
  | succ m ih =>
    cases m with
    | zero => simp [lastSuccess, onceThenFail]
    | succ k =>
      have : onceThenFail c (k + 1) = .error () := by simp [onceThenFail]
      simp only [lastSuccess, this]
      exact ih (by omega)

/-- Helper: no success so far is exactly an empty last-success snapshot. -/
theorem lastSuccess_eq_none_iff {α ε : Type} (fetcher : Nat → Except ε α) :
    ∀ n : Nat, (lastSuccess fetcher n = none ↔ ∀ i < n, exceptIsOk (fetcher i) = false) := by
  intro n
  induction n with
  | zero => simp [lastSuccess]
  | succ m ih =>
    cases hf : fetcher m with
    | ok c =>
      simp only [lastSuccess, hf]
      constructor
      · intro h; exact absurd h (by simp)
      · intro h
        have := h m (by omega)
        rw [hf] at this
        simp [exceptIsOk] at this
    | error e =>
      simp only [lastSuccess, hf]
      rw [ih]
      constructor
      · intro h i hi
        rcases Nat.lt_succ_iff_lt_or_eq.mp hi with hlt | heq
        · exact h i hlt
        · subst heq; rw [hf]; rfl
      · intro h i hi
        exact h i (by omega)

/-- C2: stale degradation of the cache.  First, with a producer that
succeeds once then always fails, after any sequence of get calls that made
at least one producer call, a forced get returns the first result (never
raising).  Second, in general, whenever the refresh's producer call fails,
the get returns the most recent previously successful producer result when
one exists.  Third, whenever the refresh's producer call fails, the get
raises exactly when no producer call on this instance has ever
succeeded. -/
theorem c2_cache_stale_degradation :
    (∀ (α : Type) (c : α) (ttl : Nat) (ops : List (Bool × Nat)) (now : Nat),
      1 ≤ (runGets (onceThenFail c) ttl ops initCacheState).calls →
      (cacheGet (onceThenFail c) ttl (runGets (onceThenFail c) ttl ops initCacheState)
        now true).1 = .ok c) ∧
    (∀ (α ε : Type) (fetcher : Nat → Except ε α) (ttl : Nat) (ops : List (Bool × Nat))
        (now : Nat) (v : α),
      exceptIsOk (fetcher (runGets fetcher ttl ops initCacheState).calls) = false →
      lastSuccess fetcher (runGets fetcher ttl ops initCacheState).calls = some v →
      (cacheGet fetcher ttl (runGets fetcher ttl ops initCacheState) now true).1 = .ok v) ∧
    (∀ (α ε : Type) (fetcher : Nat → Except ε α) (ttl : Nat) (ops : List (Bool × Nat))
        (now : Nat),
      exceptIsOk (fetcher (runGets fetcher ttl ops initCacheState).calls) = false →
      (exceptIsOk (cacheGet fetcher ttl (runGets fetcher ttl ops initCacheState)
          now true).1 = false ↔
        ∀ i < (runGets fetcher ttl ops initCacheState).calls,
          exceptIsOk (fetcher i) = false)) := by
  refine ⟨?_, ?_, ?_⟩
  · intro α c ttl ops now hcalls
    have hinv := runGets_stale_inv (onceThenFail c) ttl ops initCacheState rfl
    set s := runGets (onceThenFail c) ttl ops initCacheState with hs_def
    have hst : s.staleData = some c := by
      rw [hinv]
      exact lastSuccess_onceThenFail c s.calls hcalls
    have hf : onceThenFail c s.calls = .error () := by
      have : s.calls ≠ 0 := by omega
      simp [onceThenFail, this]
    rw [cacheGet_force_eq]
    unfold fetchAndCache
    rw [hf, hst]
  · intro α ε fetcher ttl ops now v hfail hlast
    have hinv := runGets_stale_inv fetcher ttl ops initCacheState rfl
    set s := runGets fetcher ttl ops initCacheState with hs_def
    rw [cacheGet_force_eq]
    unfold fetchAndCache
    cases hf : fetcher s.calls with
    | ok c =>
      rw [hf] at hfail
      simp [exceptIsOk] at hfail
    | error e =>
      have hst : s.staleData = some v := by
        rw [hinv]
        exact hlast
      rw [hst]
  · intro α ε fetcher ttl ops now hfail
    have hinv := runGets_stale_inv fetcher ttl ops initCacheState rfl
    set s := runGets fetcher ttl ops initCacheState with hs_def
    rw [cacheGet_force_eq]
    unfold fetchAndCache
    cases hf : fetcher s.calls with
    | ok c =>
      rw [hf] at hfail
      simp [exceptIsOk] at hfail
    | error e =>
      cases hs : s.staleData with
      | some st =>
        rw [hs] at hinv
        constructor
        · intro h
          simp [exceptIsOk] at h
        · intro h
          rw [← lastSuccess_eq_none_iff fetcher s.calls] at h
          rw [← hinv] at h
          exact absurd h (by simp)
      | none =>
        rw [hs] at hinv
        constructor
        · intro _
          rw [← lastSuccess_eq_none_iff fetcher s.calls]
          exact hinv.symm
        · intro _
          rfl

/-- Witness for C2: one successful forced get of a succeed-once producer,
then a forced get whose refresh fails and serves the snapshot 7; and the
cold-failure side with an always-failing producer and no prior calls. -/
theorem c2_cache_stale_degradation_witness :
    (cacheGet (onceThenFail 7) 10 (runGets (onceThenFail 7) 10 [(true, 0)] initCacheState)
      5 true).1 = .ok 7 ∧
    (cacheGet (onceThenFail 7) 10 (runGets (onceThenFail 7) 10 [(true, 0)] initCacheState)
      5 true).1 = .ok 7 ∧
    (exceptIsOk (cacheGet (fun _ : Nat => (.error () : Except Unit Nat)) 10
        (runGets (fun _ => .error ()) 10 [] initCacheState) 0 true).1 = false ↔
      ∀ i < (runGets (fun _ : Nat => (.error () : Except Unit Nat)) 10 []
          initCacheState).calls,
        exceptIsOk ((fun _ : Nat => (.error () : Except Unit Nat)) i) = false) :=
  ⟨c2_cache_stale_degradation.1 Nat 7 10 [(true, 0)] 5 (by decide),
   c2_cache_stale_degradation.2.1 Nat Unit (onceThenFail 7) 10 [(true, 0)] 5 7
     (by decide) (by decide),
   c2_cache_stale_degradation.2.2 Nat Unit (fun _ => .error ()) 10 [] 0 (by decide)⟩

/-- C9: warm reports true whenever a stale snapshot exists, even if the
producer fails during the warm-time refresh; warm reports false exactly
when the producer call fails and no snapshot exists (cold failure). -/
theorem c9_warm_true_on_stale :
    (∀ (α ε : Type) (fetcher : Nat → Except ε α) (ttl : Nat) (s : CacheState α)
        (now : Nat) (v : α), s.staleData = some v →
      (cacheWarm fetcher ttl s now).1 = true) ∧
    (∀ (α ε : Type) (fetcher : Nat → Except ε α) (ttl : Nat) (s : CacheState α)
        (now : Nat),
      (cacheWarm fetcher ttl s now).1 = false ↔
        (exceptIsOk (fetcher s.calls) = false ∧ s.staleData = none)) := by
  constructor
  · intro α ε fetcher ttl s now v hv
    unfold cacheWarm
    rw [cacheGet_force_eq]
    unfold fetchAndCache
    cases hf : fetcher s.calls with
    | ok c => rfl
    | error e => rw [hv]
  · intro α ε fetcher ttl s now
    unfold cacheWarm
    rw [cacheGet_force_eq]
    unfold fetchAndCache
    cases hf : fetcher s.calls with
    | ok c => simp [exceptIsOk]
    | error e =>
      cases hs : s.staleData with
      | some st => simp [exceptIsOk]
      | none => simp [exceptIsOk]

/-- Witness for C9: a failing producer over a state carrying the snapshot 5
warms to true; the same producer over the empty initial state warms to
false. -/
theorem c9_warm_true_on_stale_witness :
    (cacheWarm (fun _ : Nat => (.error () : Except Unit Nat)) 10
      ⟨none, some 5, 3⟩ 0).1 = true ∧
    ((cacheWarm (fun _ : Nat => (.error () : Except Unit Nat)) 10
        (initCacheState (α := Nat)) 0).1 = false ↔
      (exceptIsOk ((fun _ : Nat => (.error () : Except Unit Nat))
          (initCacheState (α := Nat)).calls) = false ∧
        (initCacheState (α := Nat)).staleData = none)) :=
  ⟨c9_warm_true_on_stale.1 Nat Unit (fun _ => .error ()) 10 ⟨none, some 5, 3⟩ 0 5 rfl,
   c9_warm_true_on_stale.2 Nat Unit (fun _ => .error ()) 10 initCacheState 0⟩

/-- Helper: an absent lookup is exactly a key outside the assoc list. -/
theorem lookupAssoc_eq_none_iff {β : Type} :
    ∀ (fs : List (String × β)) (k : String),
      lookupAssoc fs k = none ↔ k ∉ fs.map Prod.fst := by
  intro fs k
  induction fs with
  | nil => simp [lookupAssoc]
  | cons p rest ih =>
    by_cases h : p.1 = k
    · simp [lookupAssoc, h]
    · simp only [lookupAssoc, if_neg h, List.map_cons, List.mem_cons]
      rw [ih]
      constructor
      · intro hk hor
        rcases hor with h1 | h1
        · exact h h1.symm
        · exact hk h1
      · intro hk h1
        exact hk (Or.inr h1)

/-- Helper: inserting an absent key into the dict appends it. -/
theorem dictInsert_append_of_not_mem :
    ∀ (fs : List (String × FilterDefinition)) (k : String) (v : FilterDefinition),
      k ∉ fs.map Prod.fst → dictInsert fs k v = fs ++ [(k, v)] := by
  intro fs k v
  induction fs with
  | nil => intro _; rfl
  | cons p rest ih =>
    intro h
    simp only [List.map_cons, List.mem_cons] at h
    push_neg at h
    have hne : p.1 ≠ k := fun he => h.1 he.symm
    simp only [dictInsert, if_neg hne, List.cons_append, List.cons.injEq, true_and]
    exact ih h.2

/-- Helper: a rule of an if-chain only ever yields its own name or a name
of the remaining chain. -/
theorem iteOptionMem {p : Prop} [Decidable p] {a : String} {rest : Option String}
    {l : List String} (ha : a ∈ l) (hrest : ∀ ft, rest = some ft → ft ∈ l) :
    ∀ ft, (if p then some a else rest) = some ft → ft ∈ l := by
  intro ft h
  split at h
  · injection h with h
    rw [← h]
    exact ha
  · exact hrest ft h

/-- Helper: the signature rules only ever produce the twelve known category
names. -/
theorem identifyFilterType_mem (opts : List FilterOption) (ft : String)
    (h : identifyFilterType opts = some ft) : ft ∈ selectCategoryNames := by
  revert h
  unfold identifyFilterType
  dsimp only
  revert ft
  refine iteOptionMem (by decide) ?_
  refine iteOptionMem (by decide) ?_
  refine iteOptionMem (by decide) ?_
  refine iteOptionMem (by decide) ?_
  refine iteOptionMem (by decide) ?_
  refine iteOptionMem (by decide) ?_
  refine iteOptionMem (by decide) ?_
  refine iteOptionMem (by decide) ?_
  refine iteOptionMem (by decide) ?_
  refine iteOptionMem (by decide) ?_
  refine iteOptionMem (by decide) ?_
  refine iteOptionMem (by decide) ?_
  intro ft2 h2
  exact absurd h2 (by simp)

/-- Helper: the select phase never overwrites: it agrees with its
append-only twin on every input. -/
theorem selectPhase_eq_app :
    ∀ (sels : List (List RawSelectOption)) (fs : List (String × FilterDefinition)),
      selectPhase sels fs = selectPhaseApp sels fs := by
  intro sels
  induction sels with
  | nil => intro fs; rfl
  | cons sel rest ih =>
    intro fs
    simp only [selectPhase, selectPhaseApp]
    by_cases h0 : parseOptionsFromSelect sel = []
    · rw [if_pos h0, if_pos h0]
      exact ih fs
    · rw [if_neg h0, if_neg h0]
      cases hid : identifyFilterType (parseOptionsFromSelect sel) with
      | none => exact ih fs
      | some ft =>
        dsimp only
        by_cases hk : (lookupAssoc fs ft).isSome
        · rw [if_pos hk, if_pos hk]
          exact ih fs
        · rw [if_neg hk, if_neg hk]
          rw [dictInsert_append_of_not_mem fs ft _
            ((lookupAssoc_eq_none_iff fs ft).mp (Option.not_isSome_iff_eq_none.mp hk))]
          exact ih _

/-- Helper: keys added by the select phase come from the signature-rule
category names. -/
theorem selectPhase_keys :
    ∀ (sels : List (List RawSelectOption)) (fs : List (String × FilterDefinition))
      (k : String), k ∈ (selectPhase sels fs).map Prod.fst →
      k ∈ fs.map Prod.fst ∨ k ∈ selectCategoryNames := by
  intro sels
  induction sels with
  | nil => intro fs k hk; exact Or.inl hk
  | cons sel rest ih =>
    intro fs k hk
    simp only [selectPhase] at hk
    by_cases h0 : parseOptionsFromSelect sel = []
    · rw [if_pos h0] at hk
      exact ih fs k hk
    · rw [if_neg h0] at hk
      cases hid : identifyFilterType (parseOptionsFromSelect sel) with
      | none =>
        rw [hid] at hk
        exact ih fs k hk
      | some ft =>
        rw [hid] at hk
        dsimp only at hk
        by_cases hl : (lookupAssoc fs ft).isSome
        · rw [if_pos hl] at hk
          exact ih fs k hk
        · rw [if_neg hl] at hk
          rw [dictInsert_append_of_not_mem fs ft _
            ((lookupAssoc_eq_none_iff fs ft).mp (Option.not_isSome_iff_eq_none.mp hl))] at hk
          rcases ih _ k hk with hmem | hmem
          · simp only [List.map_append, List.mem_append, List.map_cons, List.map_nil,
              List.mem_singleton] at hmem
            rcases hmem with hmem | hmem
            · exact Or.inl hmem
            · right
              rw [hmem]
              exact identifyFilterType_mem _ ft hid
          · exact Or.inr hmem

/-- Helper: the select phase keeps the key list duplicate-free. -/
theorem selectPhase_nodup :
    ∀ (sels : List (List RawSelectOption)) (fs : List (String × FilterDefinition)),
      (fs.map Prod.fst).Nodup → ((selectPhase sels fs).map Prod.fst).Nodup := by
  intro sels
  induction sels with
  | nil => intro fs h; exact h
  | cons sel rest ih =>
    intro fs h
    simp only [selectPhase]
    by_cases h0 : parseOptionsFromSelect sel = []
    · rw [if_pos h0]
      exact ih fs h
    · rw [if_neg h0]
      cases hid : identifyFilterType (parseOptionsFromSelect sel) with
      | none => exact ih fs h
      | some ft =>
        dsimp only
        by_cases hl : (lookupAssoc fs ft).isSome
        · rw [if_pos hl]
          exact ih fs h
        · rw [if_neg hl]
          have hnm := (lookupAssoc_eq_none_iff fs ft).mp (Option.not_isSome_iff_eq_none.mp hl)
          rw [dictInsert_append_of_not_mem fs ft _ hnm]
          refine ih _ ?_
          simp [List.nodup_append, h, hnm]

/-- Helper: the button phase agrees with its append-only twin when its
container ids are fresh and mutually distinct. -/
theorem buttonPhase_eq_app (doc : SearchDoc) :
    ∀ (cfgs : List (String × String)) (fs : List (String × FilterDefinition)),
      (∀ c ∈ cfgs, c.1 ∉ fs.map Prod.fst) → (cfgs.map Prod.fst).Nodup →
      buttonPhase doc cfgs fs = buttonPhaseApp doc cfgs fs := by
  intro cfgs
  induction cfgs with
  | nil => intro fs _ _; rfl
  | cons cfg rest ih =>
    intro fs hdis hnd
    simp only [List.map_cons, List.nodup_cons] at hnd
    simp only [buttonPhase, buttonPhaseApp]
    by_cases h0 : parseButtonGroup doc cfg.1 = []
    · rw [if_pos h0, if_pos h0]
      exact ih fs (fun c hc => hdis c (List.mem_cons_of_mem cfg hc)) hnd.2
    · rw [if_neg h0, if_neg h0]
      rw [dictInsert_append_of_not_mem fs cfg.1 _ (hdis cfg (List.mem_cons_self cfg rest))]
      refine ih _ ?_ hnd.2
      intro c hc
      simp only [List.map_append, List.mem_append, List.map_cons, List.map_nil,
        List.mem_singleton]
      push_neg
      refine ⟨hdis c (List.mem_cons_of_mem cfg hc), ?_⟩
      intro he
      exact hnd.1 (he ▸ List.mem_map_of_mem Prod.fst hc)

/-- Helper: a dict assignment adds at most the assigned key. -/
theorem dictInsert_keys :
    ∀ (fs : List (String × FilterDefinition)) (k : String) (v : FilterDefinition)
      (k2 : String), k2 ∈ (dictInsert fs k v).map Prod.fst →
      k2 ∈ fs.map Prod.fst ∨ k2 = k := by
  intro fs k v
  induction fs with
  | nil =>
    intro k2 hk
    simp only [dictInsert, List.map_cons, List.map_nil, List.mem_singleton] at hk
    exact Or.inr hk
  | cons p rest ih =>
    intro k2 hk
    simp only [dictInsert] at hk
    by_cases he : p.1 = k
    · rw [if_pos he] at hk
      simp only [List.map_cons, List.mem_cons] at hk
      rcases hk with hk | hk
      · exact Or.inl (by simp [hk])
      · exact Or.inl (by simp [hk])
    · rw [if_neg he] at hk
      simp only [List.map_cons, List.mem_cons] at hk
      rcases hk with hk | hk
      · exact Or.inl (by simp [hk])
      · rcases ih k2 hk with hm | hm
        · exact Or.inl (List.mem_cons_of_mem _ hm)
        · exact Or.inr hm

/-- Helper: keys added by the button phase come from its container ids. -/
theorem buttonPhase_keys (doc : SearchDoc) :
    ∀ (cfgs : List (String × String)) (fs : List (String × FilterDefinition)) (k : String),
      k ∈ (buttonPhase doc cfgs fs).map Prod.fst →
      k ∈ fs.map Prod.fst ∨ k ∈ cfgs.map Prod.fst := by
  intro cfgs
  induction cfgs with
  | nil => intro fs k hk; exact Or.inl hk
  | cons cfg rest ih =>
    intro fs k hk
    simp only [buttonPhase] at hk
    by_cases h0 : parseButtonGroup doc cfg.1 = []
    · rw [if_pos h0] at hk
      rcases ih fs k hk with hm | hm
      · exact Or.inl hm
      · exact Or.inr (List.mem_cons_of_mem _ hm)
    · rw [if_neg h0] at hk
      rcases ih _ k hk with hm | hm
      · rcases dictInsert_keys fs cfg.1 _ k hm with hm1 | hm1
        · exact Or.inl hm1
        · right
          rw [hm1]
          simp
      · exact Or.inr (List.mem_cons_of_mem _ hm)

/-- Helper: the button phase keeps the key list duplicate-free under the
same freshness conditions. -/
theorem buttonPhase_nodup (doc : SearchDoc) :
    ∀ (cfgs : List (String × String)) (fs : List (String × FilterDefinition)),
      (fs.map Prod.fst).Nodup → (∀ c ∈ cfgs, c.1 ∉ fs.map Prod.fst) →
      (cfgs.map Prod.fst).Nodup →
      ((buttonPhase doc cfgs fs).map Prod.fst).Nodup := by
  intro cfgs
  induction cfgs with
  | nil => intro fs h _ _; exact h
  | cons cfg rest ih =>
    intro fs h hdis hnd
    simp only [List.map_cons, List.nodup_cons] at hnd
    simp only [buttonPhase]
    by_cases h0 : parseButtonGroup doc cfg.1 = []
    · rw [if_pos h0]
      exact ih fs h (fun c hc => hdis c (List.mem_cons_of_mem cfg hc)) hnd.2
    · rw [if_neg h0]
      have hfresh := hdis cfg (List.mem_cons_self cfg rest)
      rw [dictInsert_append_of_not_mem fs cfg.1 _ hfresh]
      refine ih _ ?_ ?_ hnd.2
      · simp [List.nodup_append, h, hfresh]
      · intro c hc
        simp only [List.map_append, List.mem_append, List.map_cons, List.map_nil,
          List.mem_singleton]
        push_neg
        refine ⟨hdis c (List.mem_cons_of_mem cfg hc), ?_⟩
        intro he
        exact hnd.1 (he ▸ List.mem_map_of_mem Prod.fst hc)

/-- Helper: the feature phase agrees with its append-only twin when the
feature key is fresh. -/
theorem featurePhase_eq_app (doc : SearchDoc) (fs : List (String × FilterDefinition))
    (h : "feature" ∉ fs.map Prod.fst) :
    featurePhase doc fs = featurePhaseApp doc fs := by
  simp only [featurePhase, featurePhaseApp]
  by_cases h0 : parseFeatures doc.checkboxes = []
  · rw [if_pos h0, if_pos h0]
  · rw [if_neg h0, if_neg h0]
    exact dictInsert_append_of_not_mem fs "feature" _ h

/-- Helper: the feature phase adds at most the feature key. -/
theorem featurePhase_keys (doc : SearchDoc) (fs : List (String × FilterDefinition))
    (k : String) (hk : k ∈ (featurePhase doc fs).map Prod.fst) :
    k ∈ fs.map Prod.fst ∨ k = "feature" := by
  simp only [featurePhase] at hk
  by_cases h0 : parseFeatures doc.checkboxes = []
  · rw [if_pos h0] at hk
    exact Or.inl hk
  · rw [if_neg h0] at hk
    exact dictInsert_keys fs "feature" _ k hk

/-- Helper: the feature phase keeps the key list duplicate-free. -/
theorem featurePhase_nodup (doc : SearchDoc) (fs : List (String × FilterDefinition))
    (h : (fs.map Prod.fst).Nodup) (hfresh : "feature" ∉ fs.map Prod.fst) :
    ((featurePhase doc fs).map Prod.fst).Nodup := by
  simp only [featurePhase]
  by_cases h0 : parseFeatures doc.checkboxes = []
  · rw [if_pos h0]
    exact h
  · rw [if_neg h0]
    rw [dictInsert_append_of_not_mem fs "feature" _ hfresh]
    simp [List.nodup_append, h, hfresh]

/-- Helper: the range phase agrees with its append-only twin when the range
keys are fresh and mutually distinct. -/
theorem rangePhase_eq_app :
    ∀ (cfgs : List (String × String)) (fs : List (String × FilterDefinition)),
      (∀ c ∈ cfgs, c.1 ∉ fs.map Prod.fst) → (cfgs.map Prod.fst).Nodup →
      rangePhase cfgs fs = rangePhaseApp cfgs fs := by
  intro cfgs
  induction cfgs with
  | nil => intro fs _ _; rfl
  | cons cfg rest ih =>
    intro fs hdis hnd
    simp only [List.map_cons, List.nodup_cons] at hnd
    simp only [rangePhase, rangePhaseApp]
    rw [dictInsert_append_of_not_mem fs cfg.1 _ (hdis cfg (List.mem_cons_self cfg rest))]
    refine ih _ ?_ hnd.2
    intro c hc
    simp only [List.map_append, List.mem_append, List.map_cons, List.map_nil,
      List.mem_singleton]
    push_neg
    refine ⟨hdis c (List.mem_cons_of_mem cfg hc), ?_⟩
    intro he
    exact hnd.1 (he ▸ List.mem_map_of_mem Prod.fst hc)

/-- Helper: keys added by the range phase come from its fixed key list. -/
theorem rangePhase_keys :
    ∀ (cfgs : List (String × String)) (fs : List (String × FilterDefinition)) (k : String),
      k ∈ (rangePhase cfgs fs).map Prod.fst →
      k ∈ fs.map Prod.fst ∨ k ∈ cfgs.map Prod.fst := by
  intro cfgs
  induction cfgs with
  | nil => intro fs k hk; exact Or.inl hk
  | cons cfg rest ih =>
    intro fs k hk
    simp only [rangePhase] at hk
    rcases ih _ k hk with hm | hm
    · rcases dictInsert_keys fs cfg.1 _ k hm with hm1 | hm1
      · exact Or.inl hm1
      · right
        rw [hm1]
        simp
    · exact Or.inr (List.mem_cons_of_mem _ hm)

/-- Helper: the range phase keeps the key list duplicate-free. -/
theorem rangePhase_nodup :
    ∀ (cfgs : List (String × String)) (fs : List (String × FilterDefinition)),
      (fs.map Prod.fst).Nodup → (∀ c ∈ cfgs, c.1 ∉ fs.map Prod.fst) →
      (cfgs.map Prod.fst).Nodup →
      ((rangePhase cfgs fs).map Prod.fst).Nodup := by
  intro cfgs
  induction cfgs with
  | nil => intro fs h _ _; exact h
  | cons cfg rest ih =>
    intro fs h hdis hnd
    simp only [List.map_cons, List.nodup_cons] at hnd
    simp only [rangePhase]
    have hfresh := hdis cfg (List.mem_cons_self cfg rest)
    rw [dictInsert_append_of_not_mem fs cfg.1 _ hfresh]
    refine ih _ ?_ ?_ hnd.2
    · simp [List.nodup_append, h, hfresh]
    · intro c hc
      simp only [List.map_append, List.mem_append, List.map_cons, List.map_nil,
        List.mem_singleton]
      push_neg
      refine ⟨hdis c (List.mem_cons_of_mem cfg hc), ?_⟩
      intro he
      exact hnd.1 (he ▸ List.mem_map_of_mem Prod.fst hc)

/-- C5: first-match-wins: in one classification pass no category key of the
catalog is ever overwritten — get_filters coincides with an append-only
rebuild of itself, and the resulting key list is duplicate-free. -/
theorem c5_first_match_wins :
    ∀ doc : SearchDoc,
      get_filters doc = get_filtersApp doc ∧
      ((get_filters doc).map Prod.fst).Nodup := by
  intro doc
  have h1keys : ∀ k ∈ (selectPhase doc.selects []).map Prod.fst,
      k ∈ selectCategoryNames := by
    intro k hk
    rcases selectPhase_keys doc.selects [] k hk with h | h
    · simp at h
    · exact h
  have h1nd : ((selectPhase doc.selects []).map Prod.fst).Nodup :=
    selectPhase_nodup doc.selects [] (by simp)
  have hbdis : ∀ c ∈ buttonConfigs, c.1 ∉ (selectPhase doc.selects []).map Prod.fst := by
    intro c hc hmem
    have hm := h1keys c.1 hmem
    fin_cases hc <;> revert hm <;> decide
  have hbnd : (buttonConfigs.map Prod.fst).Nodup := by decide
  have h2keys : ∀ k ∈ (buttonPhase doc buttonConfigs
      (selectPhase doc.selects [])).map Prod.fst,
      k ∈ selectCategoryNames ∨ k ∈ buttonConfigs.map Prod.fst := by
    intro k hk
    rcases buttonPhase_keys doc buttonConfigs _ k hk with h | h
    · exact Or.inl (h1keys k h)
    · exact Or.inr h
  have h2nd := buttonPhase_nodup doc buttonConfigs _ h1nd hbdis hbnd
  have hffresh : "feature" ∉ (buttonPhase doc buttonConfigs
      (selectPhase doc.selects [])).map Prod.fst := by
    intro hmem
    rcases h2keys _ hmem with h | h <;> revert h <;> decide
  have h3keys : ∀ k ∈ (featurePhase doc (buttonPhase doc buttonConfigs
      (selectPhase doc.selects []))).map Prod.fst,
      (k ∈ selectCategoryNames ∨ k ∈ buttonConfigs.map Prod.fst) ∨ k = "feature" := by
    intro k hk
    rcases featurePhase_keys doc _ k hk with h | h
    · exact Or.inl (h2keys k h)
    · exact Or.inr h
  have h3nd := featurePhase_nodup doc _ h2nd hffresh
  have hrdis : ∀ c ∈ rangeConfigs, c.1 ∉ (featurePhase doc (buttonPhase doc buttonConfigs
      (selectPhase doc.selects []))).map Prod.fst := by
    intro c hc hmem
    have hm := h3keys c.1 hmem
    fin_cases hc <;> revert hm <;> decide
  have hrnd : (rangeConfigs.map Prod.fst).Nodup := by decide
  constructor
  · unfold get_filters get_filtersApp
    rw [← selectPhase_eq_app doc.selects []]
    rw [← buttonPhase_eq_app doc buttonConfigs _ hbdis hbnd]
    rw [← featurePhase_eq_app doc _ hffresh]
    rw [← rangePhase_eq_app rangeConfigs _ hrdis hrnd]
  · unfold get_filters
    exact rangePhase_nodup rangeConfigs _ h3nd hrdis hrnd

/-- Helper: stable insertion is a permutation of pushing in front. -/
theorem insertByLabel_perm (o : FilterOption) :
    ∀ l : List FilterOption, List.Perm (insertByLabel o l) (o :: l) := by
  intro l
  induction l with
  | nil => rfl
  | cons x xs ih =>
    simp only [insertByLabel]
    by_cases hlt : x.label < o.label
    · rw [if_pos hlt]
      exact (ih.cons x).trans (List.Perm.swap o x xs)
    · rw [if_neg hlt]

/-- Helper: stable insertion preserves label-sortedness. -/
theorem insertByLabel_pairwise (o : FilterOption) :
    ∀ l : List FilterOption,
      List.Pairwise (fun a b : FilterOption => a.label ≤ b.label) l →
      List.Pairwise (fun a b : FilterOption => a.label ≤ b.label) (insertByLabel o l) := by
  intro l
  induction l with
  | nil => intro _; simp [insertByLabel]
  | cons x xs ih =>
    intro h
    rw [List.pairwise_cons] at h
    simp only [insertByLabel]
    by_cases hlt : x.label < o.label
    · rw [if_pos hlt]
      rw [List.pairwise_cons]
      constructor
      · intro b hb
        have hb2 := (insertByLabel_perm o xs).mem_iff.mp hb
        rcases List.mem_cons.mp hb2 with hb3 | hb3
        · rw [hb3]
          exact le_of_lt hlt
        · exact h.1 b hb3
      · exact ih h.2
    · rw [if_neg hlt]
      have hle : o.label ≤ x.label := le_of_not_lt hlt
      rw [List.pairwise_cons]
      constructor
      · intro b hb
        rcases List.mem_cons.mp hb with hb1 | hb1
        · rw [hb1]
          exact hle
        · exact le_trans hle (h.1 b hb1)
      · exact List.pairwise_cons.mpr h

/-- Helper: the label sort permutes its input. -/
theorem sortByLabel_perm :
    ∀ l : List FilterOption, List.Perm (sortByLabel l) l := by
  intro l
  induction l with
  | nil => rfl
  | cons x xs ih =>
    exact (insertByLabel_perm x (sortByLabel xs)).trans (ih.cons x)

/-- Helper: the label sort is sorted by label. -/
theorem sortByLabel_pairwise :
    ∀ l : List FilterOption,
      List.Pairwise (fun a b : FilterOption => a.label ≤ b.label) (sortByLabel l) := by
  intro l
  induction l with
  | nil => simp [sortByLabel]
  | cons x xs ih => exact insertByLabel_pairwise x (sortByLabel xs) ih

/-- Helper: the feature collection loop never emits a value twice nor one
from the seen set. -/
theorem collectFeatures_values :
    ∀ (boxes : List RawCheckbox) (seen : List String),
      ((collectFeatures boxes seen).map FilterOption.value).Nodup ∧
        ∀ v ∈ (collectFeatures boxes seen).map FilterOption.value, v ∉ seen := by
  intro boxes
  induction boxes with
  | nil =>
    intro seen
    refine ⟨by simp [collectFeatures], by simp [collectFeatures]⟩
  | cons b rest ih =>
    intro seen
    simp only [collectFeatures]
    cases hcv : checkboxValue b with
    | none => exact ih seen
    | some vl =>
      dsimp only
      by_cases hg : featValid vl.1 = true ∧ vl.1 ∉ seen
      · rw [if_pos hg]
        have ihs := ih (vl.1 :: seen)
        constructor
        · simp only [List.map_cons, List.nodup_cons]
          constructor
          · intro hmem
            exact ihs.2 vl.1 hmem (List.mem_cons_self _ _)
          · exact ihs.1
        · intro v hv
          simp only [List.map_cons, List.mem_cons] at hv
          rcases hv with hv | hv
          · rw [hv]
            exact hg.2
          · intro hseen
            exact ihs.2 v hv (List.mem_cons_of_mem _ hseen)
      · rw [if_neg hg]
        exact ih seen

/-- Helper: the select-option loop is the order-preserving filterMap of its
per-option body. -/
theorem parseOptionsFromSelect_filterMap :
    ∀ sel : List RawSelectOption, parseOptionsFromSelect sel = sel.filterMap optOfRaw := by
  intro sel
  induction sel with
  | nil => rfl
  | cons o rest ih =>
    simp only [parseOptionsFromSelect, List.filterMap_cons]
    cases h : optOfRaw o with
    | none => exact ih
    | some fo => simp [ih]

/-- C6: the classifier is deterministic — as a pure function of the static
document it trivially returns identical catalogs on repeated runs (the
source keeps no mutable state between get_filters calls) — and the parts
of the output the claim constrains are canonical: feature options are
sorted by label and deduplicated by value, and select options are an
order-preserving filterMap of the document's option order. -/
theorem c6_classifier_deterministic :
    (∀ doc : SearchDoc, get_filters doc = get_filters doc) ∧
    (∀ boxes : List RawCheckbox,
      List.Pairwise (fun a b : FilterOption => a.label ≤ b.label) (parseFeatures boxes)) ∧
    (∀ boxes : List RawCheckbox,
      ((parseFeatures boxes).map FilterOption.value).Nodup) ∧
    (∀ sel : List RawSelectOption, parseOptionsFromSelect sel = sel.filterMap optOfRaw) := by
  refine ⟨fun _ => rfl, ?_, ?_, parseOptionsFromSelect_filterMap⟩
  · intro boxes
    exact sortByLabel_pairwise (collectFeatures boxes [])
  · intro boxes
    have hperm := (sortByLabel_perm (collectFeatures boxes [])).map FilterOption.value
    exact hperm.nodup_iff.mpr (collectFeatures_values boxes []).1

end Cargr
